import Mathlib

/-
Verification development for the typhonjs-plugin-manager registry and
dispatch engine.  The JavaScript sources (src/PluginManager.js,
src/PluginEntry.js, src/PluginEvent.js) are shallowly embedded: JS objects
live in an explicit heap addressed by numeric references, plugin methods are
modelled as state transformers over that heap which may also throw, and each
manager operation is translated function by function from the source.
-/

namespace PluginMgr

/-- Model of a JavaScript value as used by the plugin manager: primitive
numbers, strings, booleans, null, undefined, and references to heap
objects. -/
inductive JVal where
  | num (n : Int)
  | str (s : String)
  | bool (b : Bool)
  | null
  | undef
  | ref (r : Nat)
deriving DecidableEq, Repr

/-- Model of a JavaScript object: an insertion ordered association list of
field names to values. -/
abbrev JObj := List (String × JVal)

/-- Model of the JavaScript heap: a list of objects, where a reference is an
index into the list and allocation appends. -/
structure Heap where
  objs : List JObj
deriving Repr

/-- Number of allocated objects. -/
def Heap.size (h : Heap) : Nat := h.objs.length

/-- Dereference: out of range references yield the empty object. -/
def Heap.get (h : Heap) (r : Nat) : JObj := h.objs.getD r []

/-- Replace the object stored at a reference. -/
def Heap.set (h : Heap) (r : Nat) (o : JObj) : Heap := ⟨h.objs.set r o⟩

/-- Allocate a fresh object, returning the new heap and its reference. -/
def Heap.alloc (h : Heap) (o : JObj) : Heap × Nat := (⟨h.objs ++ [o]⟩, h.objs.length)

/-- Property read on an object; missing fields read as undefined. -/
def objGet : JObj → String → JVal
  | [], _ => .undef
  | (k', v') :: rest, k => if k' = k then v' else objGet rest k

/-- Property write on an object: updates the first occurrence in place,
otherwise appends, matching JS property assignment order semantics. -/
def objSet : JObj → String → JVal → JObj
  | [], k, v => [(k, v)]
  | (k', v') :: rest, k, v => if k' = k then (k, v) :: rest else (k', v') :: objSet rest k v

/-- Read a field of the object at a reference. -/
def heapGetField (h : Heap) (r : Nat) (k : String) : JVal := objGet (h.get r) k

/-- Write a field of the object at a reference. -/
def heapSetField (h : Heap) (r : Nat) (k : String) (v : JVal) : Heap :=
  h.set r (objSet (h.get r) k v)

/-- Model of a JS array value as an object with index keys plus a length
field, used for the invoked names metadata attached by the event dispatch. -/
def mkArrayObj (vs : List JVal) : JObj :=
  (vs.enum.map fun p => (toString p.1, p.2)) ++ [("length", JVal.num vs.length)]

/-- Clones the fields of one object using the given value cloner; fields
holding undefined are dropped, as JSON.stringify drops them. -/
def cloneObjWith (cv : Heap → JVal → Option (Heap × JVal)) : Heap → JObj → Option (Heap × JObj)
  | h, [] => some (h, [])
  | h, (k, v) :: rest =>
    if v = JVal.undef then cloneObjWith cv h rest
    else
      match cv h v with
      | none => none
      | some (h1, v1) =>
        match cloneObjWith cv h1 rest with
        | none => none
        | some (h2, rest1) => some (h2, (k, v1) :: rest1)

/-- Model of JSON.parse(JSON.stringify(v)) on a value: primitives are kept,
object references are cloned recursively into freshly allocated objects.
Fuel bounds the recursion (JS would throw on cyclic data); running out of
fuel yields none. -/
def jsonCloneVal : Nat → Heap → JVal → Option (Heap × JVal)
  | 0, _, _ => none
  | fuel + 1, h, .ref r =>
    match cloneObjWith (jsonCloneVal fuel) h (h.get r) with
    | none => none
    | some (h1, fields) =>
      let p := h1.alloc fields
      some (p.1, .ref p.2)
  | _ + 1, h, v => some (h, v)

/-- Clones one object as the JSON round trip does. -/
def jsonCloneObj (fuel : Nat) : Heap → JObj → Option (Heap × JObj) :=
  cloneObjWith (jsonCloneVal fuel)

/-- A pure JSON tree, the shape of data after a JSON round trip with no
remaining heap sharing; used to model values returned by deep copy on
read. -/
inductive JTree where
  | num (n : Int)
  | str (s : String)
  | bool (b : Bool)
  | null
  | obj (fields : List (String × JTree))
deriving Repr

/-- Reads the fields of one object as JSON trees using the given value
reader, dropping undefined valued fields as JSON.stringify does. -/
def readObjWith (rt : JVal → Option JTree) : JObj → Option (List (String × JTree))
  | [] => some []
  | (k, v) :: rest =>
    if v = JVal.undef then readObjWith rt rest
    else
      match rt v with
      | none => none
      | some t =>
        match readObjWith rt rest with
        | none => none
        | some ts => some ((k, t) :: ts)

/-- Model of reading a value out of the heap as a pure JSON tree, the result
of JSON.parse(JSON.stringify(v)).  A top level undefined yields none since
JSON.parse would throw on it. -/
def readTree : Nat → Heap → JVal → Option JTree
  | 0, _, .ref _ => none
  | fuel + 1, h, .ref r =>
    match readObjWith (readTree fuel h) (h.get r) with
    | none => none
    | some fields => some (.obj fields)
  | _, _, .num n => some (.num n)
  | _, _, .str s => some (.str s)
  | _, _, .bool b => some (.bool b)
  | _, _, .null => some .null
  | _, _, .undef => none

/-- Model of an exception value thrown by JS code, identified by its
message. -/
abbrev EX := String

/-- Model of one plugin method: it receives the positional arguments and the
current heap and returns the possibly mutated heap together with either a
return value or a thrown exception. -/
def MethodImpl := List JVal → Heap → Heap × Except EX JVal

/-- Model of a capability object: an association list from method names to
their implementations.  Only callable members matter to the dispatcher. -/
abbrev Inst := List (String × MethodImpl)

/-- Method lookup on a capability object, the model of the check
typeof instance[methodName] === function followed by the call. -/
def instGet (i : Inst) (methodName : String) : Option MethodImpl :=
  match i.find? (fun p => p.1 = methodName) with
  | some p => some p.2
  | none => none

/-- Embedding of PluginEntry (src/PluginEntry.js): name, type tag, enabled
flag (true at construction), the capability object (none models a falsy
instance), the associated event proxy value and the stored options value. -/
structure PluginEntry where
  name : String
  type : String
  enabled : Bool
  inst : Option Inst
  eventProxy : JVal
  options : JVal

/-- Model of the managers internal Map of plugin name to PluginEntry: an
insertion ordered list; lookup finds the first entry with the given name. -/
abbrev PluginMap := List PluginEntry

/-- Map lookup (Map.get). -/
def pmGet : PluginMap → String → Option PluginEntry
  | [], _ => none
  | e :: rest, n => if e.name = n then some e else pmGet rest n

/-- Map insertion (Map.set): replaces an existing entry with the same name in
place, otherwise appends, preserving insertion order. -/
def pmSet : PluginMap → PluginEntry → PluginMap
  | [], e => [e]
  | x :: rest, e => if x.name = e.name then e :: rest else x :: pmSet rest e

/-- Map deletion (Map.delete): removes the first entry with the given name. -/
def pmDelete : PluginMap → String → PluginMap
  | [], _ => []
  | x :: rest, n => if x.name = n then rest else x :: pmDelete rest n

/-- Updates the entry with the given name in place, the model of mutating a
retrieved PluginEntry object. -/
def pmUpdate : PluginMap → String → (PluginEntry → PluginEntry) → PluginMap
  | [], _, _ => []
  | x :: rest, n, f => if x.name = n then f x :: rest else x :: pmUpdate rest n f

/-- Embedding of the manager options record (PluginManager constructor). -/
structure ManagerOptions where
  noEventAdd : Bool := false
  noEventRemoval : Bool := false
  throwNoMethod : Bool := false
  throwNoPlugin : Bool := false

/-- Target selector of the dispatch methods: a single plugin name or an
ordered list of names.  The omitted argument defaults to all registered
names in registration order at the call site. -/
inductive NameOrList where
  | one (name : String)
  | many (names : List String)

/-- Message of the opt-in no target error. -/
def noPluginMsg : EX := "PluginManager failed to find any target plugins."

/-- Message of the opt-in no method error. -/
def noMethodMsg (methodName : String) : EX :=
  "PluginManager failed to invoke " ++ methodName ++ "."

/-- State threaded through the invokeSync / invokeAsync selection loop,
mirroring the local variables of the source plus ghost instrumentation:
invoked records each candidate name whose method was actually called, and
exn records a pending thrown exception which stops the loop. -/
structure LoopSt where
  h : Heap
  result : JVal
  results : List JVal
  hasMethod : Bool
  hasPlugin : Bool
  invoked : List String
  exn : Option EX

/-- Initial loop state for a given heap. -/
def initLoopSt (h : Heap) : LoopSt :=
  { h := h, result := .undef, results := [], hasMethod := false, hasPlugin := false,
    invoked := [], exn := none }

/-- Embedding of one iteration of the shared invokeSync / invokeAsync loop
body (PluginManager.js lines 642-660 and 734-752, which are identical):
skip unless the entry exists, is enabled and has a truthy instance; record
hasPlugin; if the instance exposes the method call it, and push the result
subject to the guard written in the source, result !== null ||
typeof result !== undefined. -/
def invokeStep (methodName : String) (args : List JVal) (pluginMap : PluginMap)
    (st : LoopSt) (name : String) : LoopSt :=
  if st.exn.isSome then st else
  match pmGet pluginMap name with
  | none => st
  | some plugin =>
    if plugin.enabled then
      match plugin.inst with
      | none => st
      | some inst =>
        match instGet inst methodName with
        | none => { st with hasPlugin := true }
        | some m =>
          let invoked1 := st.invoked ++ [name]
          match m args st.h with
          | (h1, .error e) =>
            { st with h := h1, hasPlugin := true, invoked := invoked1, exn := some e }
          | (h1, .ok r) =>
            { st with
              h := h1
              result := r
              results := if r ≠ JVal.null ∨ r ≠ JVal.undef then st.results ++ [r] else st.results
              hasMethod := true
              hasPlugin := true
              invoked := invoked1 }
    else st

/-- Runs the selection loop over a list of candidate names. -/
def runLoop (methodName : String) (args : List JVal) (pluginMap : PluginMap) :
    LoopSt → List String → LoopSt
  | st, [] => st
  | st, n :: rest => runLoop methodName args pluginMap (invokeStep methodName args pluginMap st n) rest

/-- The selection and invocation logic shared verbatim by invokeSync and
invokeAsync: the string branch performs the loop body once, the list branch
iterates it. -/
def invokeLoop (nameOrList : NameOrList) (methodName : String) (args : List JVal)
    (pluginMap : PluginMap) (h : Heap) : LoopSt :=
  match nameOrList with
  | .one name => invokeStep methodName args pluginMap (initLoopSt h) name
  | .many names => runLoop methodName args pluginMap (initLoopSt h) names

/-- Aggregate returned by invokeSync: a single value or the results array. -/
inductive InvokeOut where
  | one (v : JVal)
  | many (vs : List JVal)
deriving DecidableEq, Repr

/-- Result of invokeSync: final heap, ghost list of invoked candidate names,
and either the aggregate or a thrown exception. -/
structure SyncOut where
  h : Heap
  invoked : List String
  outcome : Except EX InvokeOut

/-- Embedding of PluginManager.invokeSync (lines 693-767): run the shared
loop, apply the two opt-in error policies, and return the results array when
more than one result was collected, otherwise the last raw result. -/
def invokeSync (nameOrList : NameOrList) (methodName : String) (args : List JVal)
    (pluginMap : PluginMap) (options : ManagerOptions) (h : Heap) : SyncOut :=
  let st := invokeLoop nameOrList methodName args pluginMap h
  match st.exn with
  | some e => ⟨st.h, st.invoked, .error e⟩
  | none =>
    if options.throwNoPlugin ∧ ¬st.hasPlugin then ⟨st.h, st.invoked, .error noPluginMsg⟩
    else if options.throwNoMethod ∧ ¬st.hasMethod then
      ⟨st.h, st.invoked, .error (noMethodMsg methodName)⟩
    else ⟨st.h, st.invoked,
      .ok (if st.results.length > 1 then .many st.results else .one st.result)⟩

/-- Model of the promise returned by invokeAsync: a rejected promise, a
Promise.resolve of a single value, or a Promise.all over the collected
results which settles only once every element has settled. -/
inductive JSPromise where
  | rejected (e : EX)
  | resolveVal (v : JVal)
  | all (vs : List JVal)
deriving DecidableEq, Repr

/-- Result of invokeAsync: final heap, ghost invoked names, and the promise
the call returns; the call itself never throws past validation. -/
structure AsyncOut where
  h : Heap
  invoked : List String
  promise : JSPromise

/-- Embedding of PluginManager.invokeAsync (lines 599-680): the same loop and
policies, but wrapped in try/catch so that exceptions and policy failures
become a rejected promise, and the aggregate is Promise.all when more than
one result was collected, otherwise Promise.resolve of the last raw
result. -/
def invokeAsync (nameOrList : NameOrList) (methodName : String) (args : List JVal)
    (pluginMap : PluginMap) (options : ManagerOptions) (h : Heap) : AsyncOut :=
  let st := invokeLoop nameOrList methodName args pluginMap h
  match st.exn with
  | some e => ⟨st.h, st.invoked, .rejected e⟩
  | none =>
    if options.throwNoPlugin ∧ ¬st.hasPlugin then ⟨st.h, st.invoked, .rejected noPluginMsg⟩
    else if options.throwNoMethod ∧ ¬st.hasMethod then
      ⟨st.h, st.invoked, .rejected (noMethodMsg methodName)⟩
    else ⟨st.h, st.invoked,
      if st.results.length > 1 then .all st.results else .resolveVal st.result⟩

/-- Merge of the own fields of source into target in order, the model of
Object.assign(target, source): values are copied shallowly, so object
references held by source become shared. -/
def objAssign (target source : JObj) : JObj :=
  source.foldl (fun t kv => objSet t kv.1 kv.2) target

/-- Embedding of the PluginEvent constructor (src/PluginEvent.js): the data
payload is a fresh object holding a deep copy of copyProps with the fields
of passthruProps assigned over it; returns its reference. -/
def pluginEventData (fuel : Nat) (h : Heap) (copyRef passthruRef : Nat) :
    Option (Heap × Nat) :=
  match jsonCloneObj fuel h (h.get copyRef) with
  | none => none
  | some (h1, copied) =>
    let p := h1.alloc (objAssign copied (h1.get passthruRef))
    some p

/-- Allocates the envelope object itself with its data field pointing at the
payload and the per invocation fields initialized to undefined. -/
def mkEnvelope (h : Heap) (dataRef : Nat) : Heap × Nat :=
  h.alloc [("data", .ref dataRef), ("eventbus", .undef), ("pluginName", .undef),
           ("pluginOptions", .undef)]

/-- Ghost record of one event style invocation: the plugin name pushed to the
invoked names, the envelope reference the method received, and the value the
envelope pluginOptions field was set to for that call. -/
structure EvInvokeRec where
  name : String
  evRef : Nat
  pluginOptions : JVal
deriving DecidableEq, Repr

/-- State threaded through the s_INVOKE_SYNC_EVENTS loop, mirroring the
source locals pluginInvokeCount, pluginInvokeNames, hasMethod, hasPlugin
plus ghost instrumentation (recs, invoked) and a pending exception. -/
structure EvLoopSt where
  h : Heap
  count : Nat
  names : List String
  hasMethod : Bool
  hasPlugin : Bool
  recs : List EvInvokeRec
  invoked : List String
  exn : Option EX

/-- Initial event loop state. -/
def initEvLoopSt (h : Heap) : EvLoopSt :=
  { h := h, count := 0, names := [], hasMethod := false, hasPlugin := false,
    recs := [], invoked := [], exn := none }

/-- Embedding of one iteration of the s_INVOKE_SYNC_EVENTS loop body
(PluginManager.js lines 1039-1060): skip unless the entry exists, is enabled
and has a truthy instance; if the instance exposes the method, set the
envelope fields eventbus, pluginName and pluginOptions (the stored options
value itself, no copy) and call the method with the envelope as sole
argument, then bump the count and push the plugin name. -/
def evInvokeStep (methodName : String) (pluginMap : PluginMap) (evRef : Nat)
    (st : EvLoopSt) (name : String) : EvLoopSt :=
  if st.exn.isSome then st else
  match pmGet pluginMap name with
  | none => st
  | some plugin =>
    if plugin.enabled then
      match plugin.inst with
      | none => st
      | some inst =>
        match instGet inst methodName with
        | none => { st with hasPlugin := true }
        | some m =>
          let h1 := heapSetField st.h evRef "eventbus" plugin.eventProxy
          let h2 := heapSetField h1 evRef "pluginName" (.str plugin.name)
          let h3 := heapSetField h2 evRef "pluginOptions" plugin.options
          let invoked1 := st.invoked ++ [name]
          match m [.ref evRef] h3 with
          | (h4, .error e) =>
            { st with h := h4, hasPlugin := true, invoked := invoked1, exn := some e }
          | (h4, .ok _) =>
            { st with
              h := h4
              count := st.count + 1
              names := st.names ++ [plugin.name]
              hasMethod := true
              hasPlugin := true
              recs := st.recs ++ [⟨plugin.name, evRef, plugin.options⟩]
              invoked := invoked1 }
    else st

/-- Runs the event loop over a list of candidate names. -/
def evRunLoop (methodName : String) (pluginMap : PluginMap) (evRef : Nat) :
    EvLoopSt → List String → EvLoopSt
  | st, [] => st
  | st, n :: rest => evRunLoop methodName pluginMap evRef (evInvokeStep methodName pluginMap evRef st n) rest

/-- Key under which the invocation count metadata is attached. -/
def invokeCountKey : String := "$$plugin_invoke_count"

/-- Key under which the invoked names metadata is attached. -/
def invokeNamesKey : String := "$$plugin_invoke_names"

/-- Result of the event style dispatch: final heap, the envelope reference
(ghost), the invocation records and invoked names (ghost), the pending
exception if the loop threw (ghost), and the returned payload value or
thrown error. -/
structure EvOut where
  h : Heap
  evRef : Nat
  recs : List EvInvokeRec
  invoked : List String
  exn : Option EX
  result : Except EX JVal

/-- The selector fan out of s_INVOKE_SYNC_EVENTS: the string branch performs
the loop body once, the list branch iterates it. -/
def evSelect (methodName : String) (pluginMap : PluginMap) (evRef : Nat)
    (nameOrList : NameOrList) (h : Heap) : EvLoopSt :=
  match nameOrList with
  | .one name => evInvokeStep methodName pluginMap evRef (initEvLoopSt h) name
  | .many names => evRunLoop methodName pluginMap evRef (initEvLoopSt h) names

/-- The tail of s_INVOKE_SYNC_EVENTS after the loop: a pending exception
propagates; the two error policies apply only when performErrorCheck is set;
otherwise the invocation count and invoked names metadata are attached to
the payload reached through the envelope data field and the payload is
returned. -/
def evFinish (methodName : String) (options : ManagerOptions) (performErrorCheck : Bool)
    (evRef : Nat) (st : EvLoopSt) : EvOut :=
  match st.exn with
  | some e => ⟨st.h, evRef, st.recs, st.invoked, some e, .error e⟩
  | none =>
    if performErrorCheck ∧ options.throwNoPlugin ∧ ¬st.hasPlugin then
      ⟨st.h, evRef, st.recs, st.invoked, none, .error noPluginMsg⟩
    else if performErrorCheck ∧ options.throwNoMethod ∧ ¬st.hasMethod then
      ⟨st.h, evRef, st.recs, st.invoked, none, .error (noMethodMsg methodName)⟩
    else
      match heapGetField st.h evRef "data" with
      | .ref dr =>
        let h5 := heapSetField st.h dr invokeCountKey (.num st.count)
        let q := h5.alloc (mkArrayObj (st.names.map JVal.str))
        let h7 := heapSetField q.1 dr invokeNamesKey (.ref q.2)
        ⟨h7, evRef, st.recs, st.invoked, none, .ok (.ref dr)⟩
      | v => ⟨st.h, evRef, st.recs, st.invoked, none, .ok v⟩

/-- Embedding of the private s_INVOKE_SYNC_EVENTS dispatcher
(PluginManager.js lines 991-1078): build one PluginEvent shared across the
whole loop, run the loop over the selector, apply the two error policies
only when performErrorCheck is set, then attach the invocation count and
invoked names metadata to the payload and return the payload.  The outer
Option models deep copy fuel exhaustion only. -/
def s_INVOKE_SYNC_EVENTS (methodName : String) (copyRef passthruRef : Nat)
    (nameOrList : NameOrList) (pluginMap : PluginMap) (options : ManagerOptions)
    (performErrorCheck : Bool) (h : Heap) (fuel : Nat) : Option EvOut :=
  match pluginEventData fuel h copyRef passthruRef with
  | none => none
  | some (h1, dataRef) =>
    let p := mkEnvelope h1 dataRef
    some (evFinish methodName options performErrorCheck p.2
      (evSelect methodName pluginMap p.2 nameOrList p.1))

/-- Embedding of the public PluginManager.invokeSyncEvent (lines 783-787):
the private dispatcher with error checking enabled. -/
def invokeSyncEvent (methodName : String) (copyRef passthruRef : Nat)
    (nameOrList : NameOrList) (pluginMap : PluginMap) (options : ManagerOptions)
    (h : Heap) (fuel : Nat) : Option EvOut :=
  s_INVOKE_SYNC_EVENTS methodName copyRef passthruRef nameOrList pluginMap options true h fuel

/-- Embedding of PluginManager.enablePlugin (lines 327-343): sets the enabled
flag of the named entry in place and reports whether it was found. -/
def enablePlugin (m : PluginMap) (pluginName : String) (enabled : Bool) :
    PluginMap × Bool :=
  match pmGet m pluginName with
  | some _ => (pmUpdate m pluginName (fun e => { e with enabled := enabled }), true)
  | none => (m, false)

/-- Embedding of PluginManager.getPluginNames (lines 485-505): all names in
registration order when no filter is given, otherwise the names of entries
whose enabled flag matches the filter. -/
def getPluginNames (m : PluginMap) (enabled : Option Bool) : List String :=
  match enabled with
  | none => m.map (fun e => e.name)
  | some b => (m.filter (fun e => e.enabled = b)).map (fun e => e.name)

/-- Embedding of PluginManager.getPluginOptions (lines 514-527): looks up the
entry and returns a deep copy of its stored options read out of the heap as
a pure JSON tree; none models both a missing entry and a JSON failure. -/
def getPluginOptions (m : PluginMap) (h : Heap) (fuel : Nat) (pluginName : String) :
    Option JTree :=
  match pmGet m pluginName with
  | some e => readTree fuel h e.options
  | none => none

/-- Function valued properties reachable on a PluginEntry wrapper object
itself: its constructor and the methods inherited from Object.prototype.
The accessor properties of PluginEntry (name, type, instance, eventProxy,
options, enabled) yield the stored data values, which are not functions for
entries whose stored fields are non function values, as holds for every
entry built by this model. -/
def pluginEntryFunctionProps : List String :=
  ["constructor", "hasOwnProperty", "isPrototypeOf", "propertyIsEnumerable",
   "toLocaleString", "toString", "valueOf"]

/-- Embedding of PluginManager.hasPluginMethod (lines 575-585).  The source
tests typeof plugin[methodName] === function where plugin is the PluginEntry
wrapper itself, not the capability object, so the test is true exactly for
the function valued properties of the wrapper. -/
def hasPluginMethod (m : PluginMap) (pluginName methodName : String) : Bool :=
  (pmGet m pluginName).isSome && pluginEntryFunctionProps.contains methodName

/-- Embedding of the plugin configuration object accepted by add, after its
runtime type validation has passed: name, optional target string, the stored
options value, and optionally an already constructed capability object (the
typeof instance === object branch). -/
structure PluginConfig where
  name : String
  target : Option String := none
  options : JVal := .undef
  inst : Option Inst := none

/-- Test from add (line 205): whether the resolved target string looks like a
relative or absolute path, that is, starts with a dot, a forward slash or a
backslash. -/
def isPathLike (s : String) : Bool :=
  match s.data with
  | c :: _ => c = '.' ∨ c = '/' ∨ c = '\\'
  | [] => false

/-- Model of the external module loader: given whether the path branch was
taken and the target string, returns the loaded capability object, or none
when require throws. -/
def Loader := Bool → String → Option Inst

/-- Message representing a load failure thrown by require. -/
def loadErrMsg : EX := "require failed"

/-- Embedding of PluginManager.add (lines 171-225), after argument
validation: choose the instance and type tag (an existing instance yields
type instance, otherwise the loader resolves config.target, or config.name
when no target is given, and the type tag is the literal string require in
both loader branches); construct the entry enabled with an event proxy when
an eventbus is present; insert it; then run the quiet onPluginLoad dispatch
with performErrorCheck disabled, over two freshly allocated empty objects as
copyProps and passthruProps.  Returns the new map and heap, or the thrown
exception; the outer Option models deep copy fuel exhaustion only.
The instance and type tag selection of add (lines 192-215) is factored out
as addChoice: an existing instance yields type instance, otherwise the
loader resolves config.target, or config.name when no target is given, and
the type tag is the literal string require in both loader branches. -/
def addChoice (loader : Loader) (config : PluginConfig) : Except EX (Inst × String) :=
  match config.inst with
  | some i => .ok (i, "instance")
  | none =>
    let target := config.target.getD config.name
    match loader (isPathLike target) target with
    | some i => .ok (i, "require")
    | none => .error loadErrMsg

/-- Embedding of PluginManager.add (lines 171-225) proper: resolve the
instance and type tag, construct the enabled entry with an event proxy when
an eventbus is present, insert it, then run the quiet onPluginLoad
dispatch. -/
def add (loader : Loader) (eventbusPresent : Bool) (config : PluginConfig)
    (m : PluginMap) (options : ManagerOptions) (h : Heap) (fuel : Nat) :
    Option (Except EX (PluginMap × Heap)) :=
  match addChoice loader config with
  | .error e => some (.error e)
  | .ok (inst, type) =>
    let eventProxy : JVal := if eventbusPresent then .str "EventProxy" else .undef
    let entry : PluginEntry :=
      { name := config.name, type := type, enabled := true, inst := some inst,
        eventProxy := eventProxy, options := config.options }
    let m1 := pmSet m entry
    let p1 := h.alloc []
    let p2 := p1.1.alloc []
    match s_INVOKE_SYNC_EVENTS "onPluginLoad" p1.2 p2.2 (.one config.name) m1 options
        false p2.1 fuel with
    | none => none
    | some out =>
      match out.result with
      | .error e => some (.error e)
      | .ok _ => some (.ok (m1, out.h))

/-- Embedding of PluginManager.addAll (lines 232-239): sequentially applies
add to each configuration, propagating the first thrown exception. -/
def addAll (loader : Loader) (eventbusPresent : Bool) (configs : List PluginConfig)
    (m : PluginMap) (options : ManagerOptions) (h : Heap) (fuel : Nat) :
    Option (Except EX (PluginMap × Heap)) :=
  match configs with
  | [] => some (.ok (m, h))
  | c :: rest =>
    match add loader eventbusPresent c m options h fuel with
    | none => none
    | some (.error e) => some (.error e)
    | some (.ok (m1, h1)) => addAll loader eventbusPresent rest m1 options h1 fuel

/-- Embedding of the private eventbus handler _addEventbus (lines 250-255):
forwards its argument to add unless the noEventAdd option is set, in which
case the registry is left unchanged. -/
def addEventbusHandler (loader : Loader) (eventbusPresent : Bool)
    (config : PluginConfig) (m : PluginMap) (options : ManagerOptions) (h : Heap)
    (fuel : Nat) : Option (Except EX (PluginMap × Heap)) :=
  if ¬options.noEventAdd then add loader eventbusPresent config m options h fuel
  else some (.ok (m, h))

/-- Embedding of the private eventbus handler _addAllEventbus (lines
263-268).  The source function declares no parameters, so any configuration
array published with the event is dropped and addAll is called with its
default empty argument unless noEventAdd is set. -/
def addAllEventbusHandler (loader : Loader) (eventbusPresent : Bool)
    (m : PluginMap) (options : ManagerOptions) (h : Heap) (fuel : Nat) :
    Option (Except EX (PluginMap × Heap)) :=
  if ¬options.noEventAdd then addAll loader eventbusPresent [] m options h fuel
  else some (.ok (m, h))

/-- Embedding of PluginManager.remove (lines 900-919): when the entry exists,
first run the quiet onPluginUnload dispatch with performErrorCheck disabled,
then destroy its event proxy and delete the entry, returning true; otherwise
return false. -/
def remove (pluginName : String) (m : PluginMap) (options : ManagerOptions)
    (h : Heap) (fuel : Nat) : Option (Except EX (PluginMap × Heap × Bool)) :=
  match pmGet m pluginName with
  | none => some (.ok (m, h, false))
  | some _ =>
    let p1 := h.alloc []
    let p2 := p1.1.alloc []
    match s_INVOKE_SYNC_EVENTS "onPluginUnload" p1.2 p2.2 (.one pluginName) m options
        false p2.1 fuel with
    | none => none
    | some out =>
      match out.result with
      | .error e => some (.error e)
      | .ok _ => some (.ok (pmDelete m pluginName, out.h, true))

/-- Embedding of PluginManager.removeAll (lines 924-937): run the quiet
onPluginUnload dispatch over all registered names with performErrorCheck
disabled, destroy every event proxy, then clear the registry. -/
def removeAll (m : PluginMap) (options : ManagerOptions) (h : Heap) (fuel : Nat) :
    Option (Except EX (PluginMap × Heap)) :=
  let p1 := h.alloc []
  let p2 := p1.1.alloc []
  match s_INVOKE_SYNC_EVENTS "onPluginUnload" p1.2 p2.2
      (.many (m.map (fun e => e.name))) m options false p2.1 fuel with
  | none => none
  | some out =>
    match out.result with
    | .error e => some (.error e)
    | .ok _ => some (.ok ([], out.h))

/-! Concrete capability objects and registries used to evaluate the model. -/

/-- Method that returns null. -/
def retNull : MethodImpl := fun _ h => (h, .ok .null)

/-- Method that returns the number five. -/
def retFive : MethodImpl := fun _ h => (h, .ok (.num 5))

/-- Increments a numeric field of the object at a reference. -/
def incField (h : Heap) (r : Nat) (k : String) : Heap :=
  match heapGetField h r k with
  | .num n => heapSetField h r k (.num (n + 1))
  | _ => h

/-- Event style method that increments the count field of the payload
reached through the data field of the envelope it receives. -/
def countIncr : MethodImpl := fun args h =>
  match args with
  | [.ref ev] =>
    match heapGetField h ev "data" with
    | .ref d => (incField h d "count", .ok .undef)
    | _ => (h, .ok .undef)
  | _ => (h, .ok .undef)

/-- Event style method that increments the payload fields count and a, and
the field y of the nested object held by the payload field inner. -/
def deepMutator : MethodImpl := fun args h =>
  match args with
  | [.ref ev] =>
    match heapGetField h ev "data" with
    | .ref d =>
      let h1 := incField h d "count"
      let h2 := incField h1 d "a"
      match heapGetField h2 d "inner" with
      | .ref q => (incField h2 q "y", .ok .undef)
      | _ => (h2, .ok .undef)
    | _ => (h, .ok .undef)
  | _ => (h, .ok .undef)

/-- Event style method that writes one into the mode field of the object
reached through the pluginOptions field of the envelope. -/
def optMutator : MethodImpl := fun args h =>
  match args with
  | [.ref ev] =>
    match heapGetField h ev "pluginOptions" with
    | .ref o => (heapSetField h o "mode" (.num 1), .ok .undef)
    | _ => (h, .ok .undef)
  | _ => (h, .ok .undef)

/-- Builds an enabled instance type entry with the given name, capability
object and options value. -/
def mkEntry (name : String) (inst : Inst) (options : JVal := .undef) : PluginEntry :=
  { name := name, type := "instance", enabled := true, inst := some inst,
    eventProxy := .undef, options := options }

/-- Registry with plugin A whose test method returns null and plugin B whose
test method returns five. -/
def mapNullFive : PluginMap := [mkEntry "A" [("test", retNull)], mkEntry "B" [("test", retFive)]]

/-- Registry with the single plugin B whose test method returns five. -/
def mapFive : PluginMap := [mkEntry "B" [("test", retFive)]]

/-- Registry with plugin A exposing a test method. -/
def mapA : PluginMap := [mkEntry "A" [("test", retFive)]]

/-- Registry with plugins A and B whose test methods both increment the
payload count. -/
def mapCount : PluginMap := [mkEntry "A" [("test", countIncr)], mkEntry "B" [("test", countIncr)]]

/-- Heap whose object 0 is the caller copyProps object holding count zero
and whose object 1 is an empty caller passthruProps object. -/
def heapCount : Heap := ⟨[[("count", .num 0)], []]⟩

/-- Event dispatch of the two count incrementing plugins over all registered
names, the example scenario of the specification. -/
def c2run : Option EvOut :=
  invokeSyncEvent "test" 0 1 (.many (mapCount.map (fun e => e.name))) mapCount {} heapCount 20

/-- Fallback event dispatch output. -/
def evOutDefault : EvOut := ⟨⟨[]⟩, 0, [], [], none, .error ""⟩

/-- The computed output of the example scenario dispatch. -/
def c2out : EvOut := c2run.getD evOutDefault

/-- Registry with the single plugin A whose test method mutates the payload
fields count and a and the nested shared object. -/
def mapDeep : PluginMap := [mkEntry "A" [("test", deepMutator)]]

/-- Heap for the frame effect scenario: object 0 is the caller copyProps
object with field a, object 1 is the caller passthruProps object with a
count field and an inner field referencing object 2. -/
def heapDeep : Heap := ⟨[[("a", .num 1)], [("count", .num 0), ("inner", .ref 2)], [("y", .num 0)]]⟩

/-- Event dispatch of the frame effect scenario. -/
def c7run : Option EvOut :=
  invokeSyncEvent "test" 0 1 (.many ["A"]) mapDeep {} heapDeep 20

/-- The computed output of the frame effect scenario. -/
def c7out : EvOut := c7run.getD evOutDefault

/-- Registry with plugin A whose stored options value is a reference to heap
object 0 and whose test method mutates the options object. -/
def mapOpts : PluginMap := [mkEntry "A" [("test", optMutator)] (.ref 0)]

/-- Heap for the options aliasing scenario: object 0 is the stored options
object with mode zero, objects 1 and 2 are the caller copyProps and
passthruProps objects. -/
def heapOpts : Heap := ⟨[[("mode", .num 0)], [], []]⟩

/-- Event dispatch of the options aliasing scenario. -/
def c10run : Option EvOut :=
  invokeSyncEvent "test" 1 2 (.many ["A"]) mapOpts {} heapOpts 20

/-- The computed output of the options aliasing scenario. -/
def c10out : EvOut := c10run.getD evOutDefault

/-- Loader that resolves every target to a capability object with a test
method. -/
def loaderAny : Loader := fun _ _ => some [("test", retFive)]

/-- Loader that always fails; the event handler scenarios never reach it. -/
def loaderNone : Loader := fun _ _ => none

/-- Configuration registering plugin A by an existing instance. -/
def cfgA : PluginConfig := { name := "A", inst := some [("test", retFive)] }

/-- Configuration with a path like target and no instance. -/
def cfgPath : PluginConfig := { name := "p", target := some "./x" }

/-- Manager options with both opt-in error flags set. -/
def optsStrict : ManagerOptions := { throwNoMethod := true, throwNoPlugin := true }

/-- The promise invokeAsync builds from an outcome of the shared dispatch
logic: thrown exceptions and policy failures become rejections, a multi
element aggregate becomes Promise.all, a scalar becomes Promise.resolve. -/
def promiseOfOutcome : Except EX InvokeOut → JSPromise
  | .error e => .rejected e
  | .ok (.many vs) => .all vs
  | .ok (.one v) => .resolveVal v

/-- Registered plugin names after an operation returning a new registry, or
none when the operation failed or threw. -/
def pmNames : Option (Except EX (PluginMap × Heap)) → Option (List String)
  | some (.ok (m1, _)) => some (m1.map (fun e => e.name))
  | _ => none

/-- Type tag of the named entry after an operation returning a new registry. -/
def addedType (r : Option (Except EX (PluginMap × Heap))) (n : String) : Option String :=
  match r with
  | some (.ok (m1, _)) => (pmGet m1 n).map (fun e => e.type)
  | _ => none

/-- Registry and removal flag after a remove call, or none when it failed or
threw. -/
def removeNames : Option (Except EX (PluginMap × Heap × Bool)) → Option (List String × Bool)
  | some (.ok (m1, _, b)) => some (m1.map (fun e => e.name), b)
  | _ => none

/-- Quiet dispatch of a lifecycle hook over an empty registry with both
error flags set, used to witness that no opt-in error is raised. -/
def c6out : EvOut :=
  (s_INVOKE_SYNC_EVENTS "onPluginLoad" 0 1 (.many []) [] optsStrict false
    ⟨[[], []]⟩ 20).getD evOutDefault

/-- The payload heap and reference built for the frame effect scenario. -/
def c7data : Heap × Nat := (pluginEventData 20 heapDeep 0 1).getD (⟨[]⟩, 0)

/-- Result of registering the path like configuration on an empty manager. -/
def c8res : Option (Except EX (PluginMap × Heap)) :=
  add loaderAny false cfgPath [] {} ⟨[]⟩ 20

/-- Registry produced by the path like registration. -/
def c8map : PluginMap :=
  match c8res with
  | some (.ok (m1, _)) => m1
  | _ => []

/-- Heap produced by the path like registration. -/
def c8heap : Heap :=
  match c8res with
  | some (.ok (_, h1)) => h1
  | _ => ⟨[]⟩

/-! Helper lemmas about the registry map and the dispatch loops. -/

theorem pmGet_name : ∀ (m : PluginMap) (n : String) (e : PluginEntry),
    pmGet m n = some e → e.name = n := by
  intro m
  induction m with
  | nil => intro n e h; simp [pmGet] at h
  | cons x rest ih =>
    intro n e h
    by_cases hx : x.name = n
    · simp only [pmGet, if_pos hx] at h
      cases h
      exact hx
    · simp only [pmGet, if_neg hx] at h
      exact ih n e h

theorem pmGet_pmSet_self (m : PluginMap) (e : PluginEntry) :
    pmGet (pmSet m e) e.name = some e := by
  induction m with
  | nil => simp [pmSet, pmGet]
  | cons x rest ih =>
    by_cases hx : x.name = e.name
    · simp [pmSet, hx, pmGet]
    · simp [pmSet, hx, pmGet, ih]

theorem pmGet_pmUpdate_self (m : PluginMap) (n : String) (f : PluginEntry → PluginEntry)
    (hf : ∀ a, (f a).name = a.name) (e : PluginEntry) (h : pmGet m n = some e) :
    pmGet (pmUpdate m n f) n = some (f e) := by
  induction m with
  | nil => simp [pmGet] at h
  | cons x rest ih =>
    by_cases hx : x.name = n
    · simp only [pmGet, if_pos hx] at h
      cases h
      simp [pmUpdate, if_pos hx, pmGet, hf, hx]
    · simp only [pmGet, if_neg hx] at h
      simp [pmUpdate, if_neg hx, pmGet, hx, ih h]

theorem pmUpdate_names (m : PluginMap) (n : String) (f : PluginEntry → PluginEntry)
    (hf : ∀ a, (f a).name = a.name) :
    (pmUpdate m n f).map (fun e => e.name) = m.map (fun e => e.name) := by
  induction m with
  | nil => rfl
  | cons x rest ih =>
    by_cases hx : x.name = n
    · simp [pmUpdate, hx, hf]
    · simp [pmUpdate, hx, ih]

theorem pmGet_mem_names (m : PluginMap) (n : String) (h : (pmGet m n).isSome) :
    n ∈ m.map (fun e => e.name) := by
  induction m with
  | nil => simp [pmGet] at h
  | cons x rest ih =>
    by_cases hx : x.name = n
    · simp [hx]
    · simp only [pmGet, if_neg hx] at h
      simp [ih h]

theorem invokeSync_invoked (nameOrList : NameOrList) (methodName : String)
    (args : List JVal) (pluginMap : PluginMap) (options : ManagerOptions) (h : Heap) :
    (invokeSync nameOrList methodName args pluginMap options h).invoked
      = (invokeLoop nameOrList methodName args pluginMap h).invoked := by
  cases hexn : (invokeLoop nameOrList methodName args pluginMap h).exn with
  | none =>
    simp only [invokeSync, hexn]
    split
    · rfl
    split <;> rfl
  | some e => simp only [invokeSync, hexn]

theorem invokeAsync_invoked (nameOrList : NameOrList) (methodName : String)
    (args : List JVal) (pluginMap : PluginMap) (options : ManagerOptions) (h : Heap) :
    (invokeAsync nameOrList methodName args pluginMap options h).invoked
      = (invokeLoop nameOrList methodName args pluginMap h).invoked := by
  cases hexn : (invokeLoop nameOrList methodName args pluginMap h).exn with
  | none =>
    simp only [invokeAsync, hexn]
    split
    · rfl
    split <;> rfl
  | some e => simp only [invokeAsync, hexn]

theorem invokeStep_invoked_cases (methodName : String) (args : List JVal)
    (pluginMap : PluginMap) (st : LoopSt) (name : String) :
    (invokeStep methodName args pluginMap st name).invoked = st.invoked ∨
    ((invokeStep methodName args pluginMap st name).invoked = st.invoked ++ [name] ∧
      ∃ e, pmGet pluginMap name = some e ∧ e.enabled = true) := by
  unfold invokeStep
  split
  · exact Or.inl rfl
  split
  · exact Or.inl rfl
  next plugin hplug =>
    split
    next hen =>
      split
      · exact Or.inl rfl
      split
      · exact Or.inl rfl
      next m hm =>
        rcases hcall : m args st.h with ⟨h1, res⟩
        cases res <;> simp only [hcall] <;>
          exact Or.inr ⟨by simp, plugin, hplug, by simpa using hen⟩
    · exact Or.inl rfl

theorem invokeStep_not_invoked (methodName : String) (args : List JVal)
    (pluginMap : PluginMap) (p : String) (ep : PluginEntry)
    (hget : pmGet pluginMap p = some ep) (hdis : ep.enabled = false)
    (st : LoopSt) (name : String) (hst : p ∉ st.invoked) :
    p ∉ (invokeStep methodName args pluginMap st name).invoked := by
  rcases invokeStep_invoked_cases methodName args pluginMap st name with hc | ⟨hc, e, hge, hen⟩
  · rw [hc]; exact hst
  · rw [hc]
    intro hmem
    rcases List.mem_append.mp hmem with hmem | hmem
    · exact hst hmem
    · have hpn : p = name := by simpa using hmem
      subst hpn
      rw [hget] at hge
      cases hge
      rw [hdis] at hen
      exact Bool.false_ne_true hen

theorem runLoop_not_invoked (methodName : String) (args : List JVal)
    (pluginMap : PluginMap) (p : String) (ep : PluginEntry)
    (hget : pmGet pluginMap p = some ep) (hdis : ep.enabled = false) :
    ∀ (names : List String) (st : LoopSt), p ∉ st.invoked →
      p ∉ (runLoop methodName args pluginMap st names).invoked := by
  intro names
  induction names with
  | nil => intro st hst; exact hst
  | cons n rest ih =>
    intro st hst
    exact ih _ (invokeStep_not_invoked methodName args pluginMap p ep hget hdis st n hst)

theorem invokeLoop_not_invoked (nameOrList : NameOrList) (methodName : String)
    (args : List JVal) (pluginMap : PluginMap) (h : Heap) (p : String)
    (ep : PluginEntry) (hget : pmGet pluginMap p = some ep) (hdis : ep.enabled = false) :
    p ∉ (invokeLoop nameOrList methodName args pluginMap h).invoked := by
  cases nameOrList with
  | one name =>
    exact invokeStep_not_invoked methodName args pluginMap p ep hget hdis (initLoopSt h) name
      (by simp [initLoopSt])
  | many names =>
    exact runLoop_not_invoked methodName args pluginMap p ep hget hdis names (initLoopSt h)
      (by simp [initLoopSt])

theorem invokeStep_invokes (methodName : String) (args : List JVal)
    (pluginMap : PluginMap) (st : LoopSt) (name : String) (entry : PluginEntry)
    (inst : Inst) (meth : MethodImpl) (hst : st.exn = none)
    (hget : pmGet pluginMap name = some entry) (hen : entry.enabled = true)
    (hin : entry.inst = some inst) (hm : instGet inst methodName = some meth) :
    (invokeStep methodName args pluginMap st name).invoked = st.invoked ++ [name] := by
  unfold invokeStep
  rw [hst]
  simp only [Option.isSome_none, Bool.false_eq_true, if_false, hget, hen, hin, hm, if_true]
  rcases hcall : meth args st.h with ⟨h1, res⟩
  cases res <;> simp [hcall]

/-- Invariant of the event dispatch loop: every recorded invocation received
the same envelope reference and an enabled registered entry whose stored
options value it was handed, the names and count locals agree with the
records, and every invoked candidate has an enabled entry. -/
def EvInv (pluginMap : PluginMap) (evRef : Nat) (st : EvLoopSt) : Prop :=
  (∀ rec ∈ st.recs, rec.evRef = evRef ∧
     ∃ e, pmGet pluginMap rec.name = some e ∧ e.enabled = true ∧
       rec.pluginOptions = e.options) ∧
  st.names = st.recs.map (fun r => r.name) ∧
  st.count = st.recs.length ∧
  (∀ n ∈ st.invoked, ∃ e, pmGet pluginMap n = some e ∧ e.enabled = true)

theorem evInvokeStep_inv (methodName : String) (pluginMap : PluginMap) (evRef : Nat)
    (st : EvLoopSt) (name : String) (hinv : EvInv pluginMap evRef st) :
    EvInv pluginMap evRef (evInvokeStep methodName pluginMap evRef st name) := by
  obtain ⟨hrecs, hnames, hcount, hinvoked⟩ := hinv
  unfold evInvokeStep
  split
  · exact ⟨hrecs, hnames, hcount, hinvoked⟩
  split
  · exact ⟨hrecs, hnames, hcount, hinvoked⟩
  next plugin hplug =>
    split
    next hen =>
      split
      · exact ⟨hrecs, hnames, hcount, hinvoked⟩
      split
      · exact ⟨hrecs, hnames, hcount, hinvoked⟩
      next m hm =>
        have hpn : plugin.name = name := pmGet_name pluginMap name plugin hplug
        have hinvoked1 : ∀ n ∈ st.invoked ++ [name],
            ∃ e, pmGet pluginMap n = some e ∧ e.enabled = true := by
          intro n hn
          rcases List.mem_append.mp hn with hn | hn
          · exact hinvoked n hn
          · have : n = name := by simpa using hn
            subst this
            exact ⟨plugin, hplug, by simpa using hen⟩
        rcases hcall : m [JVal.ref evRef]
            (heapSetField (heapSetField (heapSetField st.h evRef "eventbus" plugin.eventProxy)
              evRef "pluginName" (JVal.str plugin.name)) evRef "pluginOptions" plugin.options)
          with ⟨h4, res⟩
        cases res with
        | error e => simp only [hcall]; exact ⟨hrecs, hnames, hcount, hinvoked1⟩
        | ok v =>
          simp only [hcall]
          refine ⟨?_, ?_, ?_, hinvoked1⟩
          · intro rec hrec
            rcases List.mem_append.mp hrec with hrec | hrec
            · exact hrecs rec hrec
            · have : rec = ⟨plugin.name, evRef, plugin.options⟩ := by simpa using hrec
              subst this
              exact ⟨rfl, plugin, by rw [hpn]; exact hplug, by simpa using hen, rfl⟩
          · simp [hnames]
          · simp [hcount]
    · exact ⟨hrecs, hnames, hcount, hinvoked⟩

theorem evRunLoop_inv (methodName : String) (pluginMap : PluginMap) (evRef : Nat) :
    ∀ (names : List String) (st : EvLoopSt), EvInv pluginMap evRef st →
      EvInv pluginMap evRef (evRunLoop methodName pluginMap evRef st names) := by
  intro names
  induction names with
  | nil => intro st hinv; exact hinv
  | cons n rest ih =>
    intro st hinv
    exact ih _ (evInvokeStep_inv methodName pluginMap evRef st n hinv)

theorem evInv_init (pluginMap : PluginMap) (evRef : Nat) (h : Heap) :
    EvInv pluginMap evRef (initEvLoopSt h) := by
  refine ⟨?_, rfl, rfl, ?_⟩ <;> intro x hx <;> simp [initEvLoopSt] at hx

theorem evSelect_inv (methodName : String) (pluginMap : PluginMap) (evRef : Nat)
    (nameOrList : NameOrList) (h : Heap) :
    EvInv pluginMap evRef (evSelect methodName pluginMap evRef nameOrList h) := by
  cases nameOrList with
  | one name => exact evInvokeStep_inv _ _ _ _ _ (evInv_init _ _ _)
  | many names => exact evRunLoop_inv _ _ _ names _ (evInv_init _ _ _)

theorem evFinish_ghost (methodName : String) (options : ManagerOptions)
    (performErrorCheck : Bool) (evRef : Nat) (st : EvLoopSt) :
    (evFinish methodName options performErrorCheck evRef st).recs = st.recs ∧
    (evFinish methodName options performErrorCheck evRef st).invoked = st.invoked ∧
    (evFinish methodName options performErrorCheck evRef st).evRef = evRef := by
  unfold evFinish
  split
  · exact ⟨rfl, rfl, rfl⟩
  split
  · exact ⟨rfl, rfl, rfl⟩
  split
  · exact ⟨rfl, rfl, rfl⟩
  split <;> exact ⟨rfl, rfl, rfl⟩

/-- Ghost facts about every event style dispatch: each recorded invocation
shares the single envelope reference of the call and was handed the stored
options value of an enabled registered entry, and every invoked candidate
has an enabled registered entry. -/
theorem sInvoke_ghost (methodName : String) (copyRef passthruRef : Nat)
    (nameOrList : NameOrList) (pluginMap : PluginMap) (options : ManagerOptions)
    (performErrorCheck : Bool) (h : Heap) (fuel : Nat) (out : EvOut)
    (hout : s_INVOKE_SYNC_EVENTS methodName copyRef passthruRef nameOrList pluginMap
      options performErrorCheck h fuel = some out) :
    (∀ rec ∈ out.recs, rec.evRef = out.evRef ∧
       ∃ e, pmGet pluginMap rec.name = some e ∧ e.enabled = true ∧
         rec.pluginOptions = e.options) ∧
    (∀ n ∈ out.invoked, ∃ e, pmGet pluginMap n = some e ∧ e.enabled = true) := by
  unfold s_INVOKE_SYNC_EVENTS at hout
  rcases hdata : pluginEventData fuel h copyRef passthruRef with _ | ⟨h1, dataRef⟩
  · rw [hdata] at hout; cases hout
  · rw [hdata] at hout
    simp only at hout
    cases hout
    obtain ⟨hrecs, _, _, hinvoked⟩ := evSelect_inv methodName pluginMap
      (mkEnvelope h1 dataRef).2 nameOrList (mkEnvelope h1 dataRef).1
    obtain ⟨hr, hi, he⟩ := evFinish_ghost methodName options performErrorCheck
      (mkEnvelope h1 dataRef).2
      (evSelect methodName pluginMap (mkEnvelope h1 dataRef).2 nameOrList
        (mkEnvelope h1 dataRef).1)
    constructor
    · intro rec hrec
      rw [hr] at hrec
      obtain ⟨hev, hrest⟩ := hrecs rec hrec
      exact ⟨by rw [he, ← hev], hrest⟩
    · intro n hn
      rw [hi] at hn
      exact hinvoked n hn

theorem evFinish_exn (methodName : String) (options : ManagerOptions)
    (performErrorCheck : Bool) (evRef : Nat) (st : EvLoopSt) :
    (evFinish methodName options performErrorCheck evRef st).exn = st.exn := by
  unfold evFinish
  split
  next e heq => exact heq.symm
  next heq =>
    split
    · exact heq.symm
    split
    · exact heq.symm
    split <;> exact heq.symm

theorem evFinish_quiet (methodName : String) (options : ManagerOptions) (evRef : Nat)
    (st : EvLoopSt) (hexn : st.exn = none) :
    ∃ v, (evFinish methodName options false evRef st).result = Except.ok v := by
  unfold evFinish
  rw [hexn]
  simp only [Bool.false_eq_true, false_and, if_false]
  split <;> exact ⟨_, rfl⟩

/-- Quiet event dispatch: with performErrorCheck disabled, a call in which no
invoked method threw always returns a payload rather than an error,
regardless of the error policy flags and of whether any plugin or method
matched. -/
theorem sInvoke_quiet (methodName : String) (copyRef passthruRef : Nat)
    (nameOrList : NameOrList) (pluginMap : PluginMap) (options : ManagerOptions)
    (h : Heap) (fuel : Nat) (out : EvOut)
    (hout : s_INVOKE_SYNC_EVENTS methodName copyRef passthruRef nameOrList pluginMap
      options false h fuel = some out) (hexn : out.exn = none) :
    ∃ v, out.result = Except.ok v := by
  unfold s_INVOKE_SYNC_EVENTS at hout
  rcases hdata : pluginEventData fuel h copyRef passthruRef with _ | ⟨h1, dataRef⟩
  · rw [hdata] at hout; cases hout
  · rw [hdata] at hout
    simp only at hout
    cases hout
    have hst : (evSelect methodName pluginMap (mkEnvelope h1 dataRef).2 nameOrList
        (mkEnvelope h1 dataRef).1).exn = none := by
      rw [← evFinish_exn methodName options false (mkEnvelope h1 dataRef).2]
      exact hexn
    exact evFinish_quiet methodName options (mkEnvelope h1 dataRef).2 _ hst

theorem Heap.size_alloc (h : Heap) (o : JObj) : (h.alloc o).1.size = h.size + 1 := by
  simp [Heap.alloc, Heap.size]

theorem cloneObjWith_size (cv : Heap → JVal → Option (Heap × JVal))
    (hP : ∀ (h : Heap) (v : JVal) (h1 : Heap) (v1 : JVal),
      cv h v = some (h1, v1) → h.size ≤ h1.size) :
    ∀ (o : JObj) (h h1 : Heap) (o1 : JObj),
      cloneObjWith cv h o = some (h1, o1) → h.size ≤ h1.size := by
  intro o
  induction o with
  | nil =>
    intro h h1 o1 hcl
    simp only [cloneObjWith, Option.some.injEq, Prod.mk.injEq] at hcl
    rw [← hcl.1]
  | cons kv rest ih =>
    obtain ⟨k, v⟩ := kv
    intro h h1 o1 hcl
    simp only [cloneObjWith] at hcl
    by_cases hv : v = JVal.undef
    · rw [if_pos hv] at hcl
      exact ih h h1 o1 hcl
    · rw [if_neg hv] at hcl
      rcases hcv : cv h v with _ | ⟨hm, v1'⟩
      · rw [hcv] at hcl; cases hcl
      · rw [hcv] at hcl
        simp only at hcl
        rcases hco : cloneObjWith cv hm rest with _ | ⟨h2, rest1⟩
        · rw [hco] at hcl; cases hcl
        · rw [hco] at hcl
          simp only [Option.some.injEq, Prod.mk.injEq] at hcl
          calc h.size ≤ hm.size := hP h v hm v1' hcv
            _ ≤ h2.size := ih hm h2 rest1 hco
            _ = h1.size := by rw [hcl.1]

theorem jsonCloneVal_size : ∀ (fuel : Nat) (h : Heap) (v : JVal) (h1 : Heap) (v1 : JVal),
    jsonCloneVal fuel h v = some (h1, v1) → h.size ≤ h1.size := by
  intro fuel
  induction fuel with
  | zero => intro h v h1 v1 hcl; simp [jsonCloneVal] at hcl
  | succ f ihf =>
    intro h v h1 v1 hcl
    cases v with
    | ref r =>
      simp only [jsonCloneVal] at hcl
      rcases hco : cloneObjWith (jsonCloneVal f) h (h.get r) with _ | ⟨hm, fields⟩
      · rw [hco] at hcl; cases hcl
      · rw [hco] at hcl
        simp only [Option.some.injEq, Prod.mk.injEq] at hcl
        have hle : h.size ≤ hm.size :=
          cloneObjWith_size (jsonCloneVal f) ihf (h.get r) h hm fields hco
        calc h.size ≤ hm.size := hle
          _ ≤ hm.size + 1 := Nat.le_succ _
          _ = (hm.alloc fields).1.size := (Heap.size_alloc hm fields).symm
          _ = h1.size := by rw [hcl.1]
    | num n => simp only [jsonCloneVal, Option.some.injEq, Prod.mk.injEq] at hcl; rw [← hcl.1]
    | str s => simp only [jsonCloneVal, Option.some.injEq, Prod.mk.injEq] at hcl; rw [← hcl.1]
    | bool b => simp only [jsonCloneVal, Option.some.injEq, Prod.mk.injEq] at hcl; rw [← hcl.1]
    | null => simp only [jsonCloneVal, Option.some.injEq, Prod.mk.injEq] at hcl; rw [← hcl.1]
    | undef => simp only [jsonCloneVal, Option.some.injEq, Prod.mk.injEq] at hcl; rw [← hcl.1]

/-- The payload object built by the PluginEvent constructor is freshly
allocated: its reference is at least the size of the incoming heap, hence
distinct from every caller object. -/
theorem pluginEventData_fresh (fuel : Nat) (h : Heap) (copyRef passthruRef : Nat)
    (h2 : Heap) (dr : Nat) (hpe : pluginEventData fuel h copyRef passthruRef = some (h2, dr)) :
    h.size ≤ dr := by
  unfold pluginEventData at hpe
  rcases hco : jsonCloneObj fuel h (h.get copyRef) with _ | ⟨hm, copied⟩
  · rw [hco] at hpe; cases hpe
  · rw [hco] at hpe
    simp only [Option.some.injEq] at hpe
    have hsnd := congrArg Prod.snd hpe
    rw [show (hm.alloc (objAssign copied (hm.get passthruRef))).2 = hm.size from rfl] at hsnd
    rw [← show hm.size = dr from hsnd]
    exact cloneObjWith_size (jsonCloneVal fuel) (jsonCloneVal_size fuel)
      (h.get copyRef) h hm copied hco

/-! Claim theorems. -/

/-- C1: the claim states that invokeSync collects exactly the non-null,
non-absent return values and returns an absent value, the single value, or
the array according to how many were collected.  Evaluating the embedded
code on a registry whose plugin A returns null and plugin B returns five
shows the code instead collects every return value, null included, because
the guard in the source, result !== null || typeof result !== undefined, is
a tautology: the call returns the two element array with the null rather
than the single value five the claim requires. -/
theorem pm_C1_eval :
    (invokeSync (.many ["A", "B"]) "test" [] mapNullFive {} ⟨[]⟩).outcome
      = Except.ok (InvokeOut.many [JVal.null, JVal.num 5]) ∧
    InvokeOut.many [JVal.null, JVal.num 5] ≠ InvokeOut.one (JVal.num 5) :=
  ⟨rfl, by decide⟩

/-- C5: the claim states that hasPluginMethod is true exactly when the entry
exists and its capability object exposes the method.  Evaluating the
embedded code on a registry whose plugin A exposes test shows the source
instead tests the method name on the PluginEntry wrapper object (the
expression plugin[methodName] is missing .instance), so the call returns
false although the capability object exposes test, and returns true for
toString, a function valued property of the wrapper. -/
theorem pm_C5_eval :
    hasPluginMethod mapA "A" "test" = false ∧
    (pmGet mapA "A").isSome = true ∧
    ((pmGet mapA "A").bind (fun e => e.inst)).map (fun i => (instGet i "test").isSome)
      = some true ∧
    hasPluginMethod mapA "A" "toString" = true :=
  ⟨rfl, rfl, rfl, rfl⟩

/-- C9: the claim states that publishing the add:all command with a
configuration array has the same effect as calling addAll with that array.
The embedded handler, like the source function _addAllEventbus, declares no
parameters, so the published array is dropped and addAll runs on its default
empty list: on an empty registry the handler registers nothing, while a
direct addAll of the same one element configuration list registers plugin A.
The single add handler does forward its argument, and both handlers refuse
to run when noEventAdd is set. -/
theorem pm_C9_eval :
    pmNames (addAllEventbusHandler loaderNone false [] {} ⟨[]⟩ 20) = some [] ∧
    pmNames (addAll loaderNone false [cfgA] [] {} ⟨[]⟩ 20) = some ["A"] ∧
    pmNames (addEventbusHandler loaderNone false cfgA [] {} ⟨[]⟩ 20) = some ["A"] ∧
    pmNames (addEventbusHandler loaderNone false cfgA [] { noEventAdd := true } ⟨[]⟩ 20)
      = some [] ∧
    pmNames (addAllEventbusHandler loaderNone false [] { noEventAdd := true } ⟨[]⟩ 20)
      = some [] :=
  ⟨rfl, rfl, rfl, rfl, rfl⟩

/-- C2: every event style dispatch builds one envelope whose reference is
handed unchanged to every invoked target, so payload mutations are seen by
later targets and by the caller; and in the concrete example scenario with
plugins A and B both incrementing the payload count, the returned payload
(object 2, distinct from the envelope object 3) carries count two, the
invocation count metadata two and the invoked names metadata [A, B] in
registration order. -/
theorem pm_C2 :
    (∀ (methodName : String) (copyRef passthruRef : Nat) (nameOrList : NameOrList)
       (pluginMap : PluginMap) (options : ManagerOptions) (performErrorCheck : Bool)
       (h : Heap) (fuel : Nat) (out : EvOut),
       s_INVOKE_SYNC_EVENTS methodName copyRef passthruRef nameOrList pluginMap options
         performErrorCheck h fuel = some out →
       ∀ rec ∈ out.recs, rec.evRef = out.evRef) ∧
    c2run = some c2out ∧
    c2out.invoked = ["A", "B"] ∧
    c2out.result = Except.ok (JVal.ref 2) ∧
    c2out.evRef = 3 ∧
    objGet (c2out.h.get 2) "count" = JVal.num 2 ∧
    objGet (c2out.h.get 2) invokeCountKey = JVal.num 2 ∧
    objGet (c2out.h.get 2) invokeNamesKey = JVal.ref 4 ∧
    c2out.h.get 4 = mkArrayObj [JVal.str "A", JVal.str "B"] := by
  refine ⟨?_, rfl, rfl, rfl, rfl, rfl, rfl, rfl, rfl⟩
  intro mn cr pr nol pluginMap opts pec h fuel out hout rec hrec
  exact ((sInvoke_ghost mn cr pr nol pluginMap opts pec h fuel out hout).1 rec hrec).1

theorem pm_C2_witness :
    EvInvokeRec.evRef ⟨"A", 3, JVal.undef⟩ = c2out.evRef :=
  pm_C2.1 "test" 0 1 (.many (mapCount.map (fun e : PluginEntry => e.name))) mapCount {}
    true heapCount 20 c2out rfl ⟨"A", 3, JVal.undef⟩ (by decide)

/-- C6: the quiet variant of the event dispatcher used by all lifecycle hook
invocations never raises the opt-in no target and no method errors: with
performErrorCheck disabled, any call in which no invoked method threw
returns a payload regardless of the error flags; concretely, with both flags
set, add succeeds for a plugin lacking onPluginLoad, and remove and
removeAll succeed for a plugin lacking onPluginUnload. -/
theorem pm_C6 :
    (∀ (methodName : String) (copyRef passthruRef : Nat) (nameOrList : NameOrList)
       (pluginMap : PluginMap) (options : ManagerOptions) (h : Heap) (fuel : Nat)
       (out : EvOut),
       s_INVOKE_SYNC_EVENTS methodName copyRef passthruRef nameOrList pluginMap options
         false h fuel = some out → out.exn = none → ∃ v, out.result = Except.ok v) ∧
    pmNames (add loaderAny false cfgA [] optsStrict ⟨[]⟩ 20) = some ["A"] ∧
    removeNames (remove "A" mapA optsStrict ⟨[]⟩ 20) = some ([], true) ∧
    pmNames (removeAll mapA optsStrict ⟨[]⟩ 20) = some [] :=
  ⟨fun mn cr pr nol pluginMap opts h fuel out hout hexn =>
    sInvoke_quiet mn cr pr nol pluginMap opts h fuel out hout hexn, rfl, rfl, rfl⟩

theorem pm_C6_witness : ∃ v, c6out.result = Except.ok v :=
  pm_C6.1 "onPluginLoad" 0 1 (.many []) [] optsStrict ⟨[[], []]⟩ 20 c6out rfl rfl

/-- C7 counterexample: the claim states that after an invokeSyncEvent call
the caller passthruProps object reflects the plugin mutations of the
payload.  In the concrete scenario the plugin increments the payload count
from zero to one, yet the caller passthruProps object (heap object 1) still
holds count zero after dispatch, because the PluginEvent constructor copies
the passthruProps property values into a fresh payload object instead of
using the object itself. -/
theorem pm_C7_counterexample :
    c7run = some c7out ∧
    c7out.result = Except.ok (JVal.ref 3) ∧
    objGet (c7out.h.get 3) "count" = JVal.num 1 ∧
    objGet (c7out.h.get 1) "count" = JVal.num 0 :=
  ⟨rfl, rfl, rfl, rfl⟩

/-- C7 amended: the payload is a freshly allocated object distinct from both
caller objects, so the caller copyProps object stays unmodified and payload
level mutations are not reflected in the caller passthruProps object either;
what pass through sharing does provide is sharing of the property values, so
a mutation made through an object valued property of passthruProps (here the
nested object at reference 2) is visible to the caller after dispatch. -/
theorem pm_C7_amended :
    (∀ (fuel : Nat) (h : Heap) (copyRef passthruRef : Nat) (h2 : Heap) (dr : Nat),
       pluginEventData fuel h copyRef passthruRef = some (h2, dr) →
       copyRef < h.size → passthruRef < h.size → dr ≠ copyRef ∧ dr ≠ passthruRef) ∧
    c7out.h.get 0 = [("a", JVal.num 1)] ∧
    objGet (c7out.h.get 3) "a" = JVal.num 2 ∧
    objGet (c7out.h.get 3) "count" = JVal.num 1 ∧
    objGet (c7out.h.get 1) "count" = JVal.num 0 ∧
    objGet (c7out.h.get 1) "inner" = JVal.ref 2 ∧
    c7out.h.get 2 = [("y", JVal.num 1)] := by
  refine ⟨?_, rfl, rfl, rfl, rfl, rfl, rfl⟩
  intro fuel h cr pr h2 dr hpe hcr hpr
  have hfresh := pluginEventData_fresh fuel h cr pr h2 dr hpe
  refine ⟨fun hEq => ?_, fun hEq => ?_⟩ <;> subst hEq <;> omega

theorem pm_C7_amended_witness : c7data.2 ≠ 0 ∧ c7data.2 ≠ 1 :=
  pm_C7_amended.1 20 heapDeep 0 1 c7data.1 c7data.2 rfl (by decide) (by decide)

/-- C10: the envelope pluginOptions field is set for each invocation to the
very options value stored in the registry entry, with no copy; concretely, a
plugin that mutates the object behind it permanently changes what later
getPluginOptions calls return (mode zero before dispatch, mode one after),
while getPluginOptions itself hands back a deep copied tree rather than the
stored object. -/
theorem pm_C10 :
    (∀ (methodName : String) (copyRef passthruRef : Nat) (nameOrList : NameOrList)
       (pluginMap : PluginMap) (options : ManagerOptions) (performErrorCheck : Bool)
       (h : Heap) (fuel : Nat) (out : EvOut),
       s_INVOKE_SYNC_EVENTS methodName copyRef passthruRef nameOrList pluginMap options
         performErrorCheck h fuel = some out →
       ∀ rec ∈ out.recs,
         ∃ e, pmGet pluginMap rec.name = some e ∧ rec.pluginOptions = e.options) ∧
    getPluginOptions mapOpts heapOpts 20 "A" = some (JTree.obj [("mode", JTree.num 0)]) ∧
    c10run = some c10out ∧
    c10out.recs = [⟨"A", 4, JVal.ref 0⟩] ∧
    getPluginOptions mapOpts c10out.h 20 "A" = some (JTree.obj [("mode", JTree.num 1)]) := by
  refine ⟨?_, rfl, rfl, rfl, rfl⟩
  intro mn cr pr nol pluginMap opts pec h fuel out hout rec hrec
  obtain ⟨hrecs, _⟩ := sInvoke_ghost mn cr pr nol pluginMap opts pec h fuel out hout
  obtain ⟨_, e, hge, _, hopt⟩ := hrecs rec hrec
  exact ⟨e, hge, hopt⟩

theorem pm_C10_witness :
    ∃ e, pmGet mapOpts "A" = some e
      ∧ (EvInvokeRec.mk "A" 4 (JVal.ref 0)).pluginOptions = e.options :=
  pm_C10.1 "test" 1 2 (.many ["A"]) mapOpts {} true heapOpts 20 c10out rfl
    ⟨"A", 4, JVal.ref 0⟩ (by decide)

theorem enablePlugin_eq_update (m : PluginMap) (n : String) (b : Bool) (e : PluginEntry)
    (he : pmGet m n = some e) :
    (enablePlugin m n b).1 = pmUpdate m n (fun x => { x with enabled := b }) := by
  simp [enablePlugin, he]

theorem pmGet_pmSet_map_type (m : PluginMap) (e : PluginEntry) :
    (pmGet (pmSet m e) e.name).map (fun x => x.type) = some e.type := by
  rw [pmGet_pmSet_self m e]
  rfl

theorem addChoice_type (loader : Loader) (config : PluginConfig) (i : Inst) (ty : String)
    (hch : addChoice loader config = .ok (i, ty)) :
    ty = if config.inst.isSome then "instance" else "require" := by
  unfold addChoice at hch
  rcases hin : config.inst with _ | i0 <;> rw [hin] at hch
  · simp only at hch
    rcases hl : loader (isPathLike (config.target.getD config.name))
        (config.target.getD config.name) with _ | i1 <;> rw [hl] at hch
    · cases hch
    · simp only [Except.ok.injEq, Prod.mk.injEq] at hch
      simp [hin, ← hch.2]
  · simp only [Except.ok.injEq, Prod.mk.injEq] at hch
    simp [hin, ← hch.2]

/-- C3: invokeAsync never throws past argument validation: it performs
exactly the selection, invocation and error policy logic of invokeSync (same
final heap, same invoked targets), but an outcome invokeSync would throw, a
policy failure or a synchronous exception from a plugin method, is returned
as a rejected promise, while more than one collected result yields a
Promise.all over the ordered results (settling only after every one has
settled) and zero or one collected result yields a Promise.resolve of that
possibly absent value. -/
theorem pm_C3 (nameOrList : NameOrList) (methodName : String) (args : List JVal)
    (pluginMap : PluginMap) (options : ManagerOptions) (h : Heap) :
    (invokeAsync nameOrList methodName args pluginMap options h).h
      = (invokeSync nameOrList methodName args pluginMap options h).h ∧
    (invokeAsync nameOrList methodName args pluginMap options h).invoked
      = (invokeSync nameOrList methodName args pluginMap options h).invoked ∧
    (∀ e, (invokeSync nameOrList methodName args pluginMap options h).outcome
        = Except.error e →
      (invokeAsync nameOrList methodName args pluginMap options h).promise
        = JSPromise.rejected e) ∧
    (∀ vs, (invokeSync nameOrList methodName args pluginMap options h).outcome
        = Except.ok (InvokeOut.many vs) →
      (invokeAsync nameOrList methodName args pluginMap options h).promise
        = JSPromise.all vs) ∧
    (∀ v, (invokeSync nameOrList methodName args pluginMap options h).outcome
        = Except.ok (InvokeOut.one v) →
      (invokeAsync nameOrList methodName args pluginMap options h).promise
        = JSPromise.resolveVal v) := by
  have hkey : invokeAsync nameOrList methodName args pluginMap options h
      = ⟨(invokeSync nameOrList methodName args pluginMap options h).h,
         (invokeSync nameOrList methodName args pluginMap options h).invoked,
         promiseOfOutcome (invokeSync nameOrList methodName args pluginMap options h).outcome⟩ := by
    unfold invokeSync invokeAsync
    cases hexn : (invokeLoop nameOrList methodName args pluginMap h).exn with
    | some e0 => simp [hexn, promiseOfOutcome]
    | none =>
      simp only [hexn]
      by_cases hp : options.throwNoPlugin = true
          ∧ (invokeLoop nameOrList methodName args pluginMap h).hasPlugin = false
      · simp [hp, promiseOfOutcome]
      · by_cases hm : options.throwNoMethod = true
            ∧ (invokeLoop nameOrList methodName args pluginMap h).hasMethod = false
        · simp [hp, hm, promiseOfOutcome]
        · by_cases hlen : (invokeLoop nameOrList methodName args pluginMap h).results.length > 1
          · simp [hp, hm, hlen, promiseOfOutcome]
          · simp [hp, hm, hlen, promiseOfOutcome]
  refine ⟨by simp [hkey], by simp [hkey], ?_, ?_, ?_⟩
  · intro e he
    simp [hkey, he, promiseOfOutcome]
  · intro vs hv
    simp [hkey, hv, promiseOfOutcome]
  · intro v hv
    simp [hkey, hv, promiseOfOutcome]

theorem pm_C3_witness :
    (invokeAsync (.many ["A", "B"]) "test" [] mapNullFive {} ⟨[]⟩).promise
      = JSPromise.all [JVal.null, JVal.num 5] ∧
    (invokeAsync (.one "B") "test" [] mapFive {} ⟨[]⟩).promise
      = JSPromise.resolveVal (JVal.num 5) ∧
    (invokeAsync (.many []) "test" [] ([] : PluginMap) optsStrict ⟨[]⟩).promise
      = JSPromise.rejected noPluginMsg :=
  ⟨(pm_C3 (.many ["A", "B"]) "test" [] mapNullFive {} ⟨[]⟩).2.2.2.1
      [JVal.null, JVal.num 5] rfl,
   (pm_C3 (.one "B") "test" [] mapFive {} ⟨[]⟩).2.2.2.2 (JVal.num 5) rfl,
   (pm_C3 (.many []) "test" [] ([] : PluginMap) optsStrict ⟨[]⟩).2.2.1 noPluginMsg rfl⟩

/-- C4: after disabling a registered plugin p, none of the three dispatch
protocols invokes a method of p (p never appears among the invoked
candidates of invokeSync or invokeAsync nor among the invocations of the
event dispatcher), yet p still appears in getPluginNames with no filter;
re-enabling p restores its participation: a dispatch addressed to p for a
method its capability object exposes invokes p again. -/
theorem pm_C4 (m : PluginMap) (p : String) (hp : (pmGet m p).isSome = true) :
    (∀ (nameOrList : NameOrList) (methodName : String) (args : List JVal)
       (options : ManagerOptions) (h : Heap),
       p ∉ (invokeSync nameOrList methodName args (enablePlugin m p false).1 options h).invoked) ∧
    (∀ (nameOrList : NameOrList) (methodName : String) (args : List JVal)
       (options : ManagerOptions) (h : Heap),
       p ∉ (invokeAsync nameOrList methodName args (enablePlugin m p false).1 options h).invoked) ∧
    (∀ (methodName : String) (copyRef passthruRef : Nat) (nameOrList : NameOrList)
       (options : ManagerOptions) (performErrorCheck : Bool) (h : Heap) (fuel : Nat)
       (out : EvOut),
       s_INVOKE_SYNC_EVENTS methodName copyRef passthruRef nameOrList
         (enablePlugin m p false).1 options performErrorCheck h fuel = some out →
       p ∉ out.invoked ∧ p ∉ out.recs.map (fun r => r.name)) ∧
    p ∈ getPluginNames (enablePlugin m p false).1 none ∧
    (∀ (e0 : PluginEntry) (inst0 : Inst) (methodName : String) (meth : MethodImpl)
       (args : List JVal) (options : ManagerOptions) (h : Heap),
       pmGet m p = some e0 → e0.inst = some inst0 → instGet inst0 methodName = some meth →
       p ∈ (invokeSync (.one p) methodName args
         (enablePlugin (enablePlugin m p false).1 p true).1 options h).invoked) := by
  obtain ⟨e0, he0⟩ := Option.isSome_iff_exists.mp hp
  have hm1 : (enablePlugin m p false).1
      = pmUpdate m p (fun e => { e with enabled := false }) :=
    enablePlugin_eq_update m p false e0 he0
  have hget1 : pmGet (enablePlugin m p false).1 p = some { e0 with enabled := false } := by
    rw [hm1]
    exact pmGet_pmUpdate_self m p (fun e => { e with enabled := false }) (fun a => rfl) e0 he0
  refine ⟨?_, ?_, ?_, ?_, ?_⟩
  · intro nameOrList methodName args options h
    rw [invokeSync_invoked]
    exact invokeLoop_not_invoked nameOrList methodName args _ h p _ hget1 rfl
  · intro nameOrList methodName args options h
    rw [invokeAsync_invoked]
    exact invokeLoop_not_invoked nameOrList methodName args _ h p _ hget1 rfl
  · intro methodName copyRef passthruRef nameOrList options performErrorCheck h fuel out hout
    obtain ⟨hrecs, hinvoked⟩ := sInvoke_ghost methodName copyRef passthruRef nameOrList
      _ options performErrorCheck h fuel out hout
    constructor
    · intro hmem
      obtain ⟨e, hge, hen⟩ := hinvoked p hmem
      rw [hget1] at hge
      cases hge
      simp at hen
    · intro hmem
      obtain ⟨r, hrmem, hrname⟩ := List.mem_map.mp hmem
      obtain ⟨_, e, hge, hen, _⟩ := hrecs r hrmem
      rw [hrname] at hge
      rw [hget1] at hge
      cases hge
      simp at hen
  · rw [hm1]
    unfold getPluginNames
    simp only
    rw [pmUpdate_names m p (fun e => { e with enabled := false }) (fun a => rfl)]
    exact pmGet_mem_names m p hp
  · intro e0' inst0 methodName meth args options h hge0' hinst hmeth
    have he0e : e0' = e0 := by rw [he0] at hge0'; cases hge0'; rfl
    subst he0e
    have hget2 : pmGet (enablePlugin (enablePlugin m p false).1 p true).1 p
        = some ((fun e => { e with enabled := true }) { e0' with enabled := false }) := by
      have hsome1 : pmGet (enablePlugin m p false).1 p = some { e0' with enabled := false } :=
        hget1
      have hm2 : (enablePlugin (enablePlugin m p false).1 p true).1
          = pmUpdate (enablePlugin m p false).1 p (fun e => { e with enabled := true }) :=
        enablePlugin_eq_update (enablePlugin m p false).1 p true
          { e0' with enabled := false } hsome1
      rw [hm2]
      exact pmGet_pmUpdate_self (enablePlugin m p false).1 p
        (fun e => { e with enabled := true }) (fun a => rfl)
        { e0' with enabled := false } hsome1
    rw [invokeSync_invoked]
    have hstep := invokeStep_invokes methodName args
      (enablePlugin (enablePlugin m p false).1 p true).1 (initLoopSt h) p
      ((fun e => { e with enabled := true }) { e0' with enabled := false }) inst0 meth
      rfl hget2 rfl hinst hmeth
    have hloop : invokeLoop (.one p) methodName args
        (enablePlugin (enablePlugin m p false).1 p true).1 h
        = invokeStep methodName args
          (enablePlugin (enablePlugin m p false).1 p true).1 (initLoopSt h) p := rfl
    rw [hloop, hstep]
    simp [initLoopSt]

theorem pm_C4_witness :
    ("A" ∉ (invokeSync (.many ["A"]) "test" [] (enablePlugin mapA "A" false).1 {} ⟨[]⟩).invoked) ∧
    "A" ∈ getPluginNames (enablePlugin mapA "A" false).1 none ∧
    "A" ∈ (invokeSync (.one "A") "test" []
      (enablePlugin (enablePlugin mapA "A" false).1 "A" true).1 {} ⟨[]⟩).invoked :=
  ⟨(pm_C4 mapA "A" rfl).1 (.many ["A"]) "test" [] {} ⟨[]⟩,
   (pm_C4 mapA "A" rfl).2.2.2.1,
   (pm_C4 mapA "A" rfl).2.2.2.2 (mkEntry "A" [("test", retFive)]) [("test", retFive)]
     "test" retFive [] {} ⟨[]⟩ rfl rfl rfl⟩

/-- C8 counterexample: the claim states that a registration resolved through
the loader is tagged require-module or require-path according to the shape
of the target string.  Registering with the path like target ./x produces an
entry whose type tag is the single string require, which is neither of the
two tags the claim names. -/
theorem pm_C8_counterexample :
    addedType (add loaderAny false cfgPath [] {} ⟨[]⟩ 20) "p" = some "require" ∧
    ("require" : String) ≠ "require-module" ∧ ("require" : String) ≠ "require-path" :=
  ⟨rfl, by decide, by decide⟩

/-- C8 amended: for every successful add, the type tag of the created entry
is the string instance when config.instance was supplied and the single
string require otherwise; the path likeness of the target only selects how
the loader is addressed and never changes the tag. -/
theorem pm_C8_amended (loader : Loader) (eventbusPresent : Bool) (config : PluginConfig)
    (m : PluginMap) (options : ManagerOptions) (h : Heap) (fuel : Nat)
    (m1 : PluginMap) (h1 : Heap)
    (hadd : add loader eventbusPresent config m options h fuel
      = some (Except.ok (m1, h1))) :
    (pmGet m1 config.name).map (fun e => e.type)
      = some (if config.inst.isSome then "instance" else "require") := by
  unfold add at hadd
  rcases hch : addChoice loader config with e | ⟨i0, ty⟩ <;> rw [hch] at hadd
  · simp at hadd
  · simp only at hadd
    split at hadd
    · cases hadd
    · split at hadd
      · simp at hadd
      · simp only [Option.some.injEq, Except.ok.injEq, Prod.mk.injEq] at hadd
        rw [← hadd.1]
        rw [pmGet_pmSet_map_type]
        exact congrArg some (addChoice_type loader config i0 ty hch)

theorem pm_C8_amended_witness :
    (pmGet c8map "p").map (fun e => e.type)
      = some (if cfgPath.inst.isSome then "instance" else "require") :=
  pm_C8_amended loaderAny false cfgPath [] {} ⟨[]⟩ 20 c8map c8heap rfl

end PluginMgr
